import Mathlib

/-!
Verification development for the tensor search-operation layer
(`python/paddle/tensor/search.py`): sort/argsort, argmax/argmin,
searchsorted/bucketize, nonzero, where and the in-place where variant.

The Python file is a wrapper layer: argument validation and dispatch are
embedded from the source directly; the native kernels (`_C_ops.argsort`,
`_C_ops.argmax`, `_C_ops.searchsorted`, `_C_ops.nonzero`, `_C_ops.where`,
`paddle.slice`, in-place `add_`) are not part of the excerpt and are
modelled from the kernel contracts stated in the specification.
-/

namespace PaddleSearch

/-- A tensor: a shape (ordered dimension sizes) together with row-major
(last-axis-fastest) flat data. -/
structure Tensor where
  shape : List Nat
  data : List Int
deriving DecidableEq, Repr

/-- Rank of a tensor: the number of dimensions. -/
def Tensor.rank (t : Tensor) : Nat := t.shape.length

/-- Product of the dimensions before axis `a`. -/
def outerSize (s : List Nat) (a : Nat) : Nat := (s.take a).prod

/-- Size of axis `a`. -/
def axisSize (s : List Nat) (a : Nat) : Nat := s.getD a 0

/-- Product of the dimensions after axis `a`. -/
def innerSize (s : List Nat) (a : Nat) : Nat := (s.drop (a + 1)).prod

/-- The 1-D slice of `t` along axis `a` at outer position `o` and inner
position `k`: element `j` sits at flat index `(o * n + j) * inner + k`. -/
def sliceAt (t : Tensor) (a o k : Nat) : List Int :=
  (List.range (axisSize t.shape a)).map
    (fun j => t.data.getD ((o * axisSize t.shape a + j) * innerSize t.shape a + k) 0)

/-- Apply a length-preserving slice transformation independently to every
1-D slice along axis `a` (the per-slice application prescribed by the
Ordering Kernel of the spec). -/
def mapAlongAxis (f : List Int → List Int) (t : Tensor) (a : Nat) : Tensor :=
  { shape := t.shape,
    data :=
      (List.range (outerSize t.shape a * axisSize t.shape a * innerSize t.shape a)).map
        (fun fidx =>
          (f (sliceAt t a (fidx / (axisSize t.shape a * innerSize t.shape a)) (fidx % innerSize t.shape a))).getD
            ((fidx % (axisSize t.shape a * innerSize t.shape a)) / innerSize t.shape a) 0) }

/-- Modelled from the spec: gathering along an axis ("argsort applied as a
gather on x along axis"): output position `(o, j, k)` reads the slice
`(o, k)` of `t` at the index stored in `ix` at `(o, j, k)`. -/
def takeAlongAxis (t ix : Tensor) (a : Nat) : Tensor :=
  { shape := ix.shape,
    data :=
      (List.range (outerSize t.shape a * axisSize t.shape a * innerSize t.shape a)).map
        (fun fidx =>
          (sliceAt t a (fidx / (axisSize t.shape a * innerSize t.shape a)) (fidx % innerSize t.shape a)).getD
            (ix.data.getD fidx 0).toNat 0) }

/-- Key order used by the sort kernel: strict before-ness for ascending
order, reversed when `descending` is set. -/
def keyBefore (descending : Bool) (a b : Int) : Bool :=
  if descending then b < a else a < b

/-- Stable insertion of an (index, value) pair into an already sorted list
of pairs: the pair moves past exactly the pairs whose value is strictly
before its own. -/
def insertPair (d : Bool) (p : Nat × Int) : List (Nat × Int) → List (Nat × Int)
  | [] => [p]
  | q :: qs => if keyBefore d q.2 p.2 then q :: insertPair d p qs else p :: q :: qs

/-- Stable insertion sort on (index, value) pairs. -/
def insertionSortPairs (d : Bool) : List (Nat × Int) → List (Nat × Int)
  | [] => []
  | p :: ps => insertPair d p (insertionSortPairs d ps)

/-- The list `[(0, l[0]), (1, l[1]), ...]` pairing each element with its
original index. -/
def enumList (l : List Int) : List (Nat × Int) :=
  (List.range l.length).map (fun i => (i, l.getD i 0))

/-- Modelled from the spec: the native `_C_ops.argsort` kernel (not under
src/), which returns both the sorted values and the source indices for one
1-D slice.  Elements are ordered ascending (descending when the flag is
set); the `stable` mode keeps equal elements in original relative order.
The tie order of the unstable mode is implementation-defined but deterministic,
so this model realises both flags with the same deterministic stable
order, a valid instance of the unspecified unstable order. -/
def argsortKernel (l : List Int) (descending stable : Bool) : List Int × List Nat :=
  let sorted := insertionSortPairs descending (enumList l)
  (sorted.map (fun p => p.2), sorted.map (fun p => p.1))

/-- Sorted values of one slice (first output of the native argsort kernel,
which `sort` returns, src/python/paddle/tensor/search.py line 637). -/
def sortK (l : List Int) (d s : Bool) : List Int := (argsortKernel l d s).1

/-- Source indices of one slice (second output of the native argsort
kernel, which `argsort` returns, src/python/paddle/tensor/search.py
line 139). -/
def argsortK (l : List Int) (d s : Bool) : List Nat := (argsortKernel l d s).2

/-- `paddle.sort`: sorted values along axis `a`. -/
def sortT (t : Tensor) (a : Nat) (d s : Bool) : Tensor :=
  mapAlongAxis (fun l => sortK l d s) t a

/-- `paddle.argsort`: source indices along axis `a`, as an int tensor. -/
def argsortT (t : Tensor) (a : Nat) (d s : Bool) : Tensor :=
  mapAlongAxis (fun l => (argsortK l d s).map Int.ofNat) t a

/-- Modelled from the spec: the per-slice native argmax kernel (part of
`_C_ops.argmax`, not under src/): the index of the first occurrence of the
maximal value of a 1-D slice (ties broken by lowest index). -/
def argmaxK : List Int → Nat
  | [] => 0
  | a :: rest =>
    match rest with
    | [] => 0
    | _ :: _ => if a < rest.getD (argmaxK rest) 0 then argmaxK rest + 1 else 0

/-- Modelled from the spec: the per-slice native argmin kernel (part of
`_C_ops.argmin`, not under src/): the index of the first occurrence of the
minimal value of a 1-D slice. -/
def argminK : List Int → Nat
  | [] => 0
  | a :: rest =>
    match rest with
    | [] => 0
    | _ :: _ => if rest.getD (argminK rest) 0 < a then argminK rest + 1 else 0

/-- Reduce every 1-D slice along axis `a` to a single value; the reduced
axis is removed from the shape (the `keepdim = false` form). -/
def reduceAlongAxis (f : List Int → Int) (t : Tensor) (a : Nat) : Tensor :=
  { shape := t.shape.take a ++ t.shape.drop (a + 1),
    data :=
      (List.range (outerSize t.shape a * innerSize t.shape a)).map
        (fun fidx => f (sliceAt t a (fidx / innerSize t.shape a) (fidx % innerSize t.shape a))) }

/-- `paddle.argmax` with a set axis (`keepdim = false`). -/
def argmaxT (t : Tensor) (a : Nat) : Tensor :=
  reduceAlongAxis (fun l => Int.ofNat (argmaxK l)) t a

/-- `paddle.argmin` with a set axis (`keepdim = false`). -/
def argminT (t : Tensor) (a : Nat) : Tensor :=
  reduceAlongAxis (fun l => Int.ofNat (argminK l)) t a

/-- Modelled from the spec: the leftmost insertion index computed by the
native searchsorted kernel with `right = false` (first position whose
element is not less than the value; `_C_ops.searchsorted` is not under
src/). -/
def lowerBound (seq : List Int) (v : Int) : Nat :=
  match seq with
  | [] => 0
  | a :: rest => if a < v then lowerBound rest v + 1 else 0

/-- Modelled from the spec: the rightmost insertion index computed by the
native searchsorted kernel with `right = true` (first position whose
element is strictly greater than the value). -/
def upperBound (seq : List Int) (v : Int) : Nat :=
  match seq with
  | [] => 0
  | a :: rest => if a ≤ v then upperBound rest v + 1 else 0

/-- One query of the searchsorted kernel against a 1-D row. -/
def searchsorted1d (seq : List Int) (v : Int) (right : Bool) : Nat :=
  if right then upperBound seq v else lowerBound seq v

/-- `paddle.searchsorted` with a 1-D `sorted_sequence` shared across all
elements of `values`.  The `out_int32` flag only selects the output
integer width and does not change the indices. -/
def searchsortedT (sortedSequence values : Tensor) (outInt32 right : Bool) : Tensor :=
  { shape := values.shape,
    data := values.data.map (fun v => Int.ofNat (searchsorted1d sortedSequence.data v right)) }

/-- Embedding of `bucketize` (src/python/paddle/tensor/search.py lines
1205-1209): rejects a `sorted_sequence` whose rank is not exactly 1, and
otherwise delegates to `searchsorted(sorted_sequence, x, out_int32,
right)`. -/
def bucketizeF (x sortedSequence : Tensor) (outInt32 right : Bool) : Except String Tensor :=
  if sortedSequence.rank ≠ 1 then
    Except.error "sorted_sequence tensor must be 1 dimension"
  else
    Except.ok (searchsortedT sortedSequence x outInt32 right)

/-- Decompose a row-major flat index into a coordinate tuple for shape
`s` (last axis fastest). -/
def unflattenIdx (s : List Nat) (i : Nat) : List Nat :=
  match s with
  | [] => []
  | _d :: ds => i / ds.prod :: unflattenIdx ds (i % ds.prod)

/-- Coordinates of the nonzero elements of `t`, in row-major scan order. -/
def nonzeroCoords (t : Tensor) : List (List Nat) :=
  (List.range t.shape.prod).filterMap
    (fun i => if t.data.getD i 0 ≠ 0 then some (unflattenIdx t.shape i) else none)

/-- Modelled from the spec: the native `_C_ops.nonzero` kernel (not under
src/): the `[Z, R]` IndexTensor whose rows are the coordinates of the `Z`
nonzero elements in row-major scan order. -/
def nonzeroKernel (t : Tensor) : Tensor :=
  { shape := [(nonzeroCoords t).length, t.rank],
    data := ((nonzeroCoords t).map (fun c => c.map (fun x => Int.ofNat x))).flatten }

/-- Modelled from the spec: `paddle.slice(outs, axes=[1], starts=[i],
ends=[i+1])` (not under src/) applied to a rank-2 tensor: column `i` as a
`[Z, 1]` tensor. -/
def sliceCol (t : Tensor) (i : Nat) : Tensor :=
  { shape := [t.shape.getD 0 0, 1],
    data := (List.range (t.shape.getD 0 0)).map
      (fun r => t.data.getD (r * t.shape.getD 1 0 + i) 0) }

/-- Embedding of the `as_tuple = True` tail of `nonzero`
(src/python/paddle/tensor/search.py lines 558-567): rank-1 input wraps the
kernel output in a 1-tuple directly; otherwise one `paddle.slice` column
per axis. -/
def nonzeroTuple (t : Tensor) : List Tensor :=
  if t.rank = 1 then [nonzeroKernel t]
  else (List.range t.rank).map (fun i => sliceCol (nonzeroKernel t) i)

/-- `nonzero(x, as_tuple)` (src/python/paddle/tensor/search.py lines
525-567): the `[Z, R]` tensor of the kernel, or the per-axis tuple. -/
inductive WhereResult where
  | tupleRes : List Tensor → WhereResult
  | tensorRes : Tensor → WhereResult
deriving DecidableEq, Repr

/-- Embedding of `nonzero` (dynamic mode). -/
def nonzeroF (t : Tensor) (asTuple : Bool) : WhereResult :=
  if asTuple then WhereResult.tupleRes (nonzeroTuple t)
  else WhereResult.tensorRes (nonzeroKernel t)

/-- A Python-level `x`/`y` argument of `where`: omitted (`None`), a
Python/numpy scalar, or a tensor. -/
inductive WhereArg where
  | null : WhereArg
  | scalar : Int → WhereArg
  | tensor : Tensor → WhereArg
deriving DecidableEq, Repr

/-- Embedding of the scalar-promotion prologue of `where` (src lines
760-764): a scalar becomes the length-1 tensor `paddle.full([1], v)`;
`None` stays `None`. -/
def argToOpt : WhereArg → Option Tensor
  | WhereArg.null => Option.none
  | WhereArg.scalar v => Option.some (Tensor.mk [1] [v])
  | WhereArg.tensor t => Option.some t

/-- Modelled from the spec: trailing-aligned broadcast of two shapes
(processed reversed, so trailing dimensions first; a size-1 dimension
stretches). The zeros-addition construction of src lines 781-792 is,
per the spec, conceptually equivalent to this standard broadcasting. -/
def bcastRev : List Nat → List Nat → Option (List Nat)
  | [], ys => Option.some ys
  | xs, [] => Option.some xs
  | x :: xs, y :: ys =>
    if x = y ∨ x = 1 ∨ y = 1 then
      (bcastRev xs ys).map (fun r => max x y :: r)
    else Option.none

/-- Broadcast shape of two shapes, or `none` if incompatible. -/
def broadcastShape2 (s1 s2 : List Nat) : Option (List Nat) :=
  (bcastRev s1.reverse s2.reverse).map List.reverse

/-- Broadcast shape of the three `where` operands, combined in the order
the source combines them (x with y, then with condition). -/
def broadcastShape3 (s1 s2 s3 : List Nat) : Option (List Nat) :=
  match broadcastShape2 s1 s2 with
  | Option.none => Option.none
  | Option.some s12 => broadcastShape2 s12 s3

/-- Map a coordinate of the broadcast shape back onto the own
(trailing-aligned) dimensions of a tensor: a size-1 dimension always reads index 0. -/
def bcastCoord : List Nat → List Nat → List Nat
  | [], _ => []
  | _, [] => []
  | d :: ds, a :: rest => (if d = 1 then 0 else a) :: bcastCoord ds rest

/-- Row-major flat index of a coordinate tuple for shape `s`. -/
def flattenIdx : List Nat → List Nat → Nat
  | _, [] => 0
  | [], _ => 0
  | _d :: ds, a :: rest => a * ds.prod + flattenIdx ds rest

/-- Modelled from the spec: materialise a tensor at the broadcast shape
`s` (trailing dimensions aligned, size-1 dimensions stretched). -/
def broadcastTo (t : Tensor) (s : List Nat) : Tensor :=
  { shape := s,
    data := (List.range s.prod).map (fun i =>
      t.data.getD
        (flattenIdx t.shape (bcastCoord t.shape
          ((unflattenIdx s i).drop (s.length - t.shape.length)))) 0) }

/-- Modelled from the spec: the native elementwise select kernel
`_C_ops.where` on same-shape operands (condition nonzero picks `x`,
otherwise `y`). -/
def whereKernel (cond x y : Tensor) : Tensor :=
  { shape := x.shape,
    data := (List.range x.data.length).map
      (fun i => if cond.data.getD i 0 ≠ 0 then x.data.getD i 0 else y.data.getD i 0) }

/-- Embedding of the tensor-tensor tail of `where` (src lines 772-795):
matching shapes skip broadcasting, otherwise all three operands are
broadcast to the common shape before the select kernel. -/
def whereTensors (cond tx ty : Tensor) : Except String Tensor :=
  if tx.shape = ty.shape ∧ cond.shape = tx.shape then
    Except.ok (whereKernel cond tx ty)
  else
    match broadcastShape3 tx.shape ty.shape cond.shape with
    | Option.none => Except.error "could not broadcast operand shapes"
    | Option.some s =>
      Except.ok (whereKernel (broadcastTo cond s) (broadcastTo tx s) (broadcastTo ty s))

/-- Embedding of `where` (src lines 711-795, dynamic mode): scalar
promotion, the both-`None` nonzero path, the exactly-one-`None` value
error, then elementwise select. -/
def whereF (cond : Tensor) (x0 y0 : WhereArg) : Except String WhereResult :=
  match argToOpt x0, argToOpt y0 with
  | Option.none, Option.none => Except.ok (WhereResult.tupleRes (nonzeroTuple cond))
  | Option.none, Option.some _ =>
    Except.error "either both or neither of x and y should be given"
  | Option.some _, Option.none =>
    Except.error "either both or neither of x and y should be given"
  | Option.some tx, Option.some ty => (whereTensors cond tx ty).map WhereResult.tensorRes

/-- Storage for the stateful in-place variant: storage id to flat data. -/
abbrev Store := List (List Int)

/-- All tensor data held at storage id `i`. -/
def readStore (σ : Store) (i : Nat) : List Int := List.getD σ i []

/-- Overwrite the data held at storage id `i`. -/
def writeStore (σ : Store) (i : Nat) (d : List Int) : Store := List.set σ i d

/-- A tensor value living in a store: a storage id plus its shape. -/
structure TRef where
  id : Nat
  shape : List Nat
deriving DecidableEq, Repr

/-- An `x`/`y` argument of `where_`. -/
inductive WhereRefArg where
  | null : WhereRefArg
  | scalar : Int → WhereRefArg
  | ref : TRef → WhereRefArg
deriving DecidableEq, Repr

/-- `np.isscalar` on a `where_` argument (src line 837). -/
def isScalarArg : WhereRefArg → Bool
  | WhereRefArg.scalar _ => true
  | _ => false

/-- The tensor value a reference denotes in a store. -/
def derefT (σ : Store) (r : TRef) : Tensor := Tensor.mk r.shape (readStore σ r.id)

/-- The tensor-tensor tail of `where_` (src lines 843-865): matching
shapes go straight to the in-place kernel; otherwise the broadcast shape
is computed and, because `x.add_(broadcast_zeros)` cannot change the
shape of `x`, the shape of `x` must already equal it.  Either way the
result is written into the storage of `x` and the returned tensor is
`x` itself. -/
def whereInplaceRefs (σ : Store) (cond x y : TRef) : Except String (Store × TRef) :=
  if x.shape = y.shape ∧ cond.shape = x.shape then
    Except.ok
      (writeStore σ x.id
        (whereKernel (derefT σ cond) (derefT σ x) (derefT σ y)).data, x)
  else
    match broadcastShape3 x.shape y.shape cond.shape with
    | Option.none => Except.error "could not broadcast operand shapes"
    | Option.some s =>
      if x.shape = s then
        Except.ok
          (writeStore σ x.id
            (whereKernel (broadcastTo (derefT σ cond) s)
              (broadcastTo (derefT σ x) s) (broadcastTo (derefT σ y) s)).data, x)
      else Except.error "in-place add_ cannot change the shape of x"

/-- The tensor reference an argument carries, if any. -/
def refArgToOpt : WhereRefArg → Option TRef
  | WhereRefArg.ref r => Option.some r
  | _ => Option.none

/-- Embedding of the in-place `where_` (src lines 826-865) over an
explicit store.  The pieces not under src/ are modelled from the spec:
the `inplace_apis_in_dygraph_only` decorator rejects any call outside
eager/dynamic mode, and the native in-place kernels write into the first
storage of the first data operand (see `whereInplaceRefs`). -/
def whereInplace (eager : Bool) (σ : Store) (cond : TRef) (x0 y0 : WhereRefArg) :
    Except String (Store × TRef) :=
  if eager = false then
    Except.error "In static mode, the inplace version of this API is unavailable"
  else if isScalarArg x0 || isScalarArg y0 then
    Except.error "either both or neither of x and y should be given"
  else
    match refArgToOpt x0, refArgToOpt y0 with
    | Option.some x, Option.some y => whereInplaceRefs σ cond x y
    | _, _ => Except.error "either both or neither of x and y should be given"

/-- `argmax` along an axis with the `keepdim` flag: when kept, the
reduced axis stays as a size-1 dimension. -/
def argmaxWithKeepdim (t : Tensor) (a : Nat) (keepdim : Bool) : Tensor :=
  if keepdim then
    Tensor.mk (t.shape.take a ++ 1 :: t.shape.drop (a + 1)) (argmaxT t a).data
  else argmaxT t a

/-- `argmin` along an axis with the `keepdim` flag. -/
def argminWithKeepdim (t : Tensor) (a : Nat) (keepdim : Bool) : Tensor :=
  if keepdim then
    Tensor.mk (t.shape.take a ++ 1 :: t.shape.drop (a + 1)) (argminT t a).data
  else argminT t a

/-- Embedding of the `argmax` wrapper (src lines 174-243, dynamic mode):
an explicit `dtype=None` sentinel is rejected with a value error before
any computation or kernel dispatch; otherwise axis `None` means the
flattened tensor is reduced, and a negative axis is normalised by adding
the rank. -/
def argmaxW (x : Tensor) (axis : Option Int) (keepdim : Bool)
    (dtype : Option String) : Except String Tensor :=
  match dtype with
  | Option.none =>
    Except.error "the value of dtype in argmax could not be None, but received None"
  | Option.some _ =>
    match axis with
    | Option.none =>
      Except.ok
        (if keepdim then
          Tensor.mk (List.replicate x.rank 1) [Int.ofNat (argmaxK x.data)]
        else Tensor.mk [] [Int.ofNat (argmaxK x.data)])
    | Option.some a =>
      Except.ok
        (argmaxWithKeepdim x
          (if a < 0 then (a + (x.rank : Int)).toNat else a.toNat) keepdim)

/-- Embedding of the `argmin` wrapper (src lines 275-344, dynamic mode),
mirror image of `argmaxW`. -/
def argminW (x : Tensor) (axis : Option Int) (keepdim : Bool)
    (dtype : Option String) : Except String Tensor :=
  match dtype with
  | Option.none =>
    Except.error "the value of dtype in argmin could not be None, but received None"
  | Option.some _ =>
    match axis with
    | Option.none =>
      Except.ok
        (if keepdim then
          Tensor.mk (List.replicate x.rank 1) [Int.ofNat (argminK x.data)]
        else Tensor.mk [] [Int.ofNat (argminK x.data)])
    | Option.some a =>
      Except.ok
        (argminWithKeepdim x
          (if a < 0 then (a + (x.rank : Int)).toNat else a.toNat) keepdim)

theorem insertPair_length (d : Bool) (p : Nat × Int) (l : List (Nat × Int)) :
    (insertPair d p l).length = l.length + 1 := by
  induction l with
  | nil => rfl
  | cons q qs ih =>
    simp only [insertPair]
    by_cases h : keyBefore d q.2 p.2 <;> simp [h, ih]

theorem insertionSortPairs_length (d : Bool) (l : List (Nat × Int)) :
    (insertionSortPairs d l).length = l.length := by
  induction l with
  | nil => rfl
  | cons p ps ih => simp [insertionSortPairs, insertPair_length, ih]

theorem mem_insertPair (d : Bool) (p q : Nat × Int) (l : List (Nat × Int))
    (h : q ∈ insertPair d p l) : q = p ∨ q ∈ l := by
  induction l with
  | nil => simpa [insertPair] using h
  | cons r rs ih =>
    simp only [insertPair] at h
    split at h
    · rcases List.mem_cons.mp h with h | h
      · exact Or.inr (by simp [h])
      · rcases ih h with h2 | h2
        · exact Or.inl h2
        · exact Or.inr (by simp [h2])
    · rcases List.mem_cons.mp h with h | h
      · exact Or.inl h
      · exact Or.inr h

theorem mem_insertionSortPairs (d : Bool) (q : Nat × Int) (l : List (Nat × Int))
    (h : q ∈ insertionSortPairs d l) : q ∈ l := by
  induction l with
  | nil => simpa [insertionSortPairs] using h
  | cons p ps ih =>
    simp only [insertionSortPairs] at h
    rcases mem_insertPair d p q _ h with h2 | h2
    · exact h2 ▸ List.mem_cons_self p ps
    · exact List.mem_cons_of_mem p (ih h2)

theorem mem_enumList (l : List Int) (p : Nat × Int) (h : p ∈ enumList l) :
    p.1 < l.length ∧ p.2 = l.getD p.1 0 := by
  simp only [enumList, List.mem_map, List.mem_range] at h
  obtain ⟨i, hi, hp⟩ := h
  subst hp
  exact ⟨hi, rfl⟩

theorem enumList_length (l : List Int) : (enumList l).length = l.length := by
  simp [enumList]

/-- Core per-slice fact for C1: each entry of the sorted values equals the
original slice read at the corresponding argsort index, and that index is
in range. -/
theorem sortK_eq_getD_argsortK (l : List Int) (d s : Bool) (j : Nat)
    (hj : j < l.length) :
    (argsortK l d s).getD j 0 < l.length ∧
      (sortK l d s).getD j 0 = l.getD ((argsortK l d s).getD j 0) 0 := by
  have hlen : (insertionSortPairs d (enumList l)).length = l.length := by
    rw [insertionSortPairs_length, enumList_length]
  have hj2 : j < (insertionSortPairs d (enumList l)).length := by omega
  have hmem : (insertionSortPairs d (enumList l)).get ⟨j, hj2⟩ ∈
      insertionSortPairs d (enumList l) := List.get_mem _ _ _
  have hsrc := mem_enumList l _ (mem_insertionSortPairs d _ _ hmem)
  have hids : (argsortK l d s).getD j 0 =
      ((insertionSortPairs d (enumList l)).get ⟨j, hj2⟩).1 := by
    simp only [argsortK, argsortKernel]
    rw [List.getD_eq_getElem _ _ (by simpa using hj2)]
    simp [List.getElem_map]
  have hout : (sortK l d s).getD j 0 =
      ((insertionSortPairs d (enumList l)).get ⟨j, hj2⟩).2 := by
    simp only [sortK, argsortKernel]
    rw [List.getD_eq_getElem _ _ (by simpa using hj2)]
    simp [List.getElem_map]
  refine ⟨by rw [hids]; exact hsrc.1, ?_⟩
  rw [hout, hids, ← hsrc.2]

theorem Tensor.eq_of_fields {t1 t2 : Tensor} (h1 : t1.shape = t2.shape)
    (h2 : t1.data = t2.data) : t1 = t2 := by
  cases t1; cases t2; simp_all

theorem sliceAt_length (t : Tensor) (a o k : Nat) :
    (sliceAt t a o k).length = axisSize t.shape a := by
  simp [sliceAt]

theorem argsortK_length (l : List Int) (d s : Bool) :
    (argsortK l d s).length = l.length := by
  simp [argsortK, argsortKernel, insertionSortPairs_length, enumList_length]

theorem range_map_getD {α : Type} (n j : Nat) (f : Nat → α) (dflt : α)
    (hj : j < n) : ((List.range n).map f).getD j dflt = f j := by
  rw [List.getD_eq_getElem _ _ (by simpa using hj)]
  simp

theorem toNat_ofNat_eq (m : Nat) : (Int.ofNat m).toNat = m := rfl

/-- C1: for every tensor `x` and valid axis, gathering the elements of `x`
along the axis at the index positions returned by
`argsort(x, axis, descending, stable)` yields exactly the tensor returned
by `sort(x, axis, descending, stable)` with the same flags. -/
theorem argsort_gather_reproduces_sort (t : Tensor) (a : Nat) (d s : Bool)
    (ha : a < t.rank) :
    takeAlongAxis t (argsortT t a d s) a = sortT t a d s := by
  clear ha
  refine Tensor.eq_of_fields rfl ?_
  simp only [takeAlongAxis, sortT, argsortT, mapAlongAxis]
  apply List.map_congr_left
  intro fidx hfidx
  rw [List.mem_range] at hfidx
  have hN : 0 < outerSize t.shape a * axisSize t.shape a * innerSize t.shape a := by
    omega
  have hn : 0 < axisSize t.shape a := by
    rcases Nat.eq_zero_or_pos (axisSize t.shape a) with h | h
    · rw [h] at hN; simp at hN
    · exact h
  have hinner : 0 < innerSize t.shape a := by
    rcases Nat.eq_zero_or_pos (innerSize t.shape a) with h | h
    · rw [h] at hN; simp at hN
    · exact h
  have hj : (fidx % (axisSize t.shape a * innerSize t.shape a)) / innerSize t.shape a
      < axisSize t.shape a := by
    have h1 : fidx % (axisSize t.shape a * innerSize t.shape a)
        < axisSize t.shape a * innerSize t.shape a :=
      Nat.mod_lt _ (Nat.mul_pos hn hinner)
    exact (Nat.div_lt_iff_lt_mul hinner).mpr h1
  rw [range_map_getD _ _ _ _ hfidx]
  have hjlen : (fidx % (axisSize t.shape a * innerSize t.shape a)) / innerSize t.shape a
      < ((argsortK (sliceAt t a (fidx / (axisSize t.shape a * innerSize t.shape a))
          (fidx % innerSize t.shape a)) d s).map Int.ofNat).length := by
    rw [List.length_map, argsortK_length, sliceAt_length]
    exact hj
  rw [List.getD_eq_getElem _ _ hjlen, List.getElem_map, toNat_ofNat_eq]
  have hjslice : (fidx % (axisSize t.shape a * innerSize t.shape a)) / innerSize t.shape a
      < (sliceAt t a (fidx / (axisSize t.shape a * innerSize t.shape a))
          (fidx % innerSize t.shape a)).length := by
    rw [sliceAt_length]; exact hj
  have hmain := (sortK_eq_getD_argsortK
    (sliceAt t a (fidx / (axisSize t.shape a * innerSize t.shape a))
      (fidx % innerSize t.shape a)) d s
    ((fidx % (axisSize t.shape a * innerSize t.shape a)) / innerSize t.shape a)
    hjslice).2
  rw [hmain]
  congr 1
  rw [List.getD_eq_getElem _ _ (by rw [argsortK_length, sliceAt_length]; exact hj)]

/-- Witness for C1 at a concrete input. -/
theorem argsort_gather_reproduces_sort_witness :
    1 < (Tensor.mk [2, 3] [3, 1, 2, 5, 4, 4]).rank ∧
      takeAlongAxis (Tensor.mk [2, 3] [3, 1, 2, 5, 4, 4])
          (argsortT (Tensor.mk [2, 3] [3, 1, 2, 5, 4, 4]) 1 false true) 1 =
        sortT (Tensor.mk [2, 3] [3, 1, 2, 5, 4, 4]) 1 false true :=
  ⟨by decide, argsort_gather_reproduces_sort _ 1 false true (by decide)⟩

example : sortT (Tensor.mk [2, 3] [3, 1, 2, 5, 4, 4]) 1 false true =
    Tensor.mk [2, 3] [1, 2, 3, 4, 4, 5] := by decide

example : argsortT (Tensor.mk [2, 3] [3, 1, 2, 5, 4, 4]) 1 false true =
    Tensor.mk [2, 3] [1, 2, 0, 1, 2, 0] := by decide

example : argsortK [1, 0, 1, 0] false true = [1, 3, 0, 2] := by decide

example : argmaxK [5, 5, 3] = 0 := by decide

example : argmaxT (Tensor.mk [3, 4] [5, 8, 9, 5, 0, 0, 1, 7, 6, 9, 2, 4]) 0 =
    Tensor.mk [4] [2, 2, 0, 1] := by decide

example : argminT (Tensor.mk [3, 4] [5, 8, 9, 5, 0, 0, 1, 7, 6, 9, 2, 4]) 1 =
    Tensor.mk [3] [0, 0, 2] := by decide

theorem argmaxK_cons_cons (a b : Int) (rest2 : List Int) :
    argmaxK (a :: b :: rest2) =
      if a < (b :: rest2).getD (argmaxK (b :: rest2)) 0 then argmaxK (b :: rest2) + 1
      else 0 := rfl

/-- `argmaxK` picks a position holding the maximum, every element is at
most the value there, and every strictly earlier position holds a strictly
smaller value (hence it is the first occurrence of the maximum). -/
theorem argmaxK_first_max (l : List Int) (hl : l ≠ []) :
    argmaxK l < l.length ∧
      (∀ j, j < l.length → l.getD j 0 ≤ l.getD (argmaxK l) 0) ∧
      (∀ j, j < argmaxK l → l.getD j 0 < l.getD (argmaxK l) 0) := by
  induction l with
  | nil => exact absurd rfl hl
  | cons a rest ih =>
    match rest with
    | [] =>
      refine ⟨by simp [argmaxK], ?_, ?_⟩
      · intro j hj
        simp only [List.length_cons, List.length_nil] at hj
        have hj0 : j = 0 := by omega
        subst hj0
        simp [argmaxK]
      · intro j hj
        simp [argmaxK] at hj
    | b :: rest2 =>
      obtain ⟨ih1, ih2, ih3⟩ := ih (by simp)
      by_cases hcmp : a < (b :: rest2).getD (argmaxK (b :: rest2)) 0
      · have hdef : argmaxK (a :: b :: rest2) = argmaxK (b :: rest2) + 1 := by
          rw [argmaxK_cons_cons, if_pos hcmp]
        refine ⟨?_, ?_, ?_⟩
        · rw [hdef]; simpa using ih1
        · intro j hj
          rw [hdef]
          match j with
          | 0 => simpa using le_of_lt hcmp
          | j2 + 1 =>
            simp only [List.getD_cons_succ]
            exact ih2 j2 (by simpa using hj)
        · intro j hj
          rw [hdef] at hj ⊢
          match j with
          | 0 => simpa using hcmp
          | j2 + 1 =>
            simp only [List.getD_cons_succ]
            exact ih3 j2 (by omega)
      · have hdef : argmaxK (a :: b :: rest2) = 0 := by
          rw [argmaxK_cons_cons, if_neg hcmp]
        refine ⟨by simp [hdef], ?_, ?_⟩
        · intro j hj
          rw [hdef]
          match j with
          | 0 => simp
          | j2 + 1 =>
            simp only [List.getD_cons_succ, List.getD_cons_zero]
            push_neg at hcmp
            exact le_trans (ih2 j2 (by simpa using hj)) hcmp
        · intro j hj
          rw [hdef] at hj
          omega

/-- C3: for every tensor `x` and set axis, `argmax(x, axis)` returns, for
each 1-D slice along the axis (at outer position `o` and inner position
`k`), the lowest index at which the maximal value of that slice occurs:
the stored index is in range, every slice element is at most the element
at the stored index, and every earlier element is strictly smaller (first
occurrence on ties). -/
theorem argmax_first_occurrence (t : Tensor) (a o k : Nat)
    (ha : a < t.rank) (ho : o < outerSize t.shape a)
    (hk : k < innerSize t.shape a) (hn : 0 < axisSize t.shape a) :
    ((argmaxT t a).data.getD (o * innerSize t.shape a + k) 0).toNat
        < axisSize t.shape a ∧
      (∀ j, j < axisSize t.shape a →
        (sliceAt t a o k).getD j 0 ≤
          (sliceAt t a o k).getD
            ((argmaxT t a).data.getD (o * innerSize t.shape a + k) 0).toNat 0) ∧
      (∀ j, j < ((argmaxT t a).data.getD (o * innerSize t.shape a + k) 0).toNat →
        (sliceAt t a o k).getD j 0 <
          (sliceAt t a o k).getD
            ((argmaxT t a).data.getD (o * innerSize t.shape a + k) 0).toNat 0) := by
  clear ha
  have hinner : 0 < innerSize t.shape a := by omega
  have hidx : o * innerSize t.shape a + k < outerSize t.shape a * innerSize t.shape a := by
    calc o * innerSize t.shape a + k < (o + 1) * innerSize t.shape a := by
          rw [Nat.add_mul, Nat.one_mul]; omega
      _ ≤ outerSize t.shape a * innerSize t.shape a :=
          Nat.mul_le_mul_right _ (by omega)
  have hdata : (argmaxT t a).data.getD (o * innerSize t.shape a + k) 0 =
      Int.ofNat (argmaxK (sliceAt t a o k)) := by
    have hdiv : (o * innerSize t.shape a + k) / innerSize t.shape a = o := by
      rw [Nat.mul_comm o (innerSize t.shape a), Nat.mul_add_div hinner,
        Nat.div_eq_of_lt hk, Nat.add_zero]
    have hmod : (o * innerSize t.shape a + k) % innerSize t.shape a = k :=
      Nat.mul_add_mod_of_lt hk
    simp only [argmaxT, reduceAlongAxis]
    rw [range_map_getD _ _ _ _ hidx, hdiv, hmod]
  rw [hdata, toNat_ofNat_eq]
  have hne : sliceAt t a o k ≠ [] := by
    intro h
    have := sliceAt_length t a o k
    rw [h] at this
    simp at this
    omega
  have hmain := argmaxK_first_max (sliceAt t a o k) hne
  rw [sliceAt_length] at hmain
  exact hmain

/-- Witness for C3 at the tie-break example `[5, 5, 3]` of the spec. -/
theorem argmax_first_occurrence_witness :
    (0 < (Tensor.mk [3] [5, 5, 3]).rank ∧ 0 < outerSize [3] 0 ∧
        0 < innerSize [3] 0 ∧ 0 < axisSize [3] 0 ∧
        argmaxT (Tensor.mk [3] [5, 5, 3]) 0 = Tensor.mk [] [0]) ∧
      (((argmaxT (Tensor.mk [3] [5, 5, 3]) 0).data.getD 0 0).toNat < 3 ∧
        (∀ j, j < 3 →
          (sliceAt (Tensor.mk [3] [5, 5, 3]) 0 0 0).getD j 0 ≤
            (sliceAt (Tensor.mk [3] [5, 5, 3]) 0 0 0).getD
              ((argmaxT (Tensor.mk [3] [5, 5, 3]) 0).data.getD 0 0).toNat 0) ∧
        (∀ j, j < ((argmaxT (Tensor.mk [3] [5, 5, 3]) 0).data.getD 0 0).toNat →
          (sliceAt (Tensor.mk [3] [5, 5, 3]) 0 0 0).getD j 0 <
            (sliceAt (Tensor.mk [3] [5, 5, 3]) 0 0 0).getD
              ((argmaxT (Tensor.mk [3] [5, 5, 3]) 0).data.getD 0 0).toNat 0)) :=
  ⟨by decide,
    argmax_first_occurrence (Tensor.mk [3] [5, 5, 3]) 0 0 0
      (by decide) (by decide) (by decide) (by decide)⟩

theorem lowerBound_le_length (seq : List Int) (v : Int) :
    lowerBound seq v ≤ seq.length := by
  induction seq with
  | nil => simp [lowerBound]
  | cons a rest ih =>
    simp only [lowerBound, List.length_cons]
    by_cases h : a < v <;> simp [h] <;> omega

theorem upperBound_le_length (seq : List Int) (v : Int) :
    upperBound seq v ≤ seq.length := by
  induction seq with
  | nil => simp [upperBound]
  | cons a rest ih =>
    simp only [upperBound, List.length_cons]
    by_cases h : a ≤ v <;> simp [h] <;> omega

theorem lowerBound_before (seq : List Int) (v : Int) (j : Nat)
    (hj : j < lowerBound seq v) : seq.getD j 0 < v := by
  induction seq generalizing j with
  | nil => simp [lowerBound] at hj
  | cons a rest ih =>
    simp only [lowerBound] at hj
    by_cases h : a < v
    · rw [if_pos h] at hj
      match j with
      | 0 => simpa using h
      | j2 + 1 =>
        rw [List.getD_cons_succ]
        exact ih j2 (by omega)
    · rw [if_neg h] at hj
      omega

theorem upperBound_before (seq : List Int) (v : Int) (j : Nat)
    (hj : j < upperBound seq v) : seq.getD j 0 ≤ v := by
  induction seq generalizing j with
  | nil => simp [upperBound] at hj
  | cons a rest ih =>
    simp only [upperBound] at hj
    by_cases h : a ≤ v
    · rw [if_pos h] at hj
      match j with
      | 0 => simpa using h
      | j2 + 1 =>
        rw [List.getD_cons_succ]
        exact ih j2 (by omega)
    · rw [if_neg h] at hj
      omega

theorem lowerBound_at (seq : List Int) (v : Int)
    (h : lowerBound seq v < seq.length) : v ≤ seq.getD (lowerBound seq v) 0 := by
  induction seq with
  | nil => simp [lowerBound] at h
  | cons a rest ih =>
    by_cases hc : a < v
    · have hd : lowerBound (a :: rest) v = lowerBound rest v + 1 := by
        simp [lowerBound, hc]
      rw [hd] at h ⊢
      rw [List.getD_cons_succ]
      exact ih (by simpa using Nat.lt_of_succ_lt_succ (by simpa using h))
    · have hd : lowerBound (a :: rest) v = 0 := by simp [lowerBound, hc]
      rw [hd]
      simpa using le_of_not_lt hc

theorem upperBound_at (seq : List Int) (v : Int)
    (h : upperBound seq v < seq.length) : v < seq.getD (upperBound seq v) 0 := by
  induction seq with
  | nil => simp [upperBound] at h
  | cons a rest ih =>
    by_cases hc : a ≤ v
    · have hd : upperBound (a :: rest) v = upperBound rest v + 1 := by
        simp [upperBound, hc]
      rw [hd] at h ⊢
      rw [List.getD_cons_succ]
      exact ih (by simpa using Nat.lt_of_succ_lt_succ (by simpa using h))
    · have hd : upperBound (a :: rest) v = 0 := by simp [upperBound, hc]
      rw [hd]
      simpa using lt_of_not_le hc

/-- C2: for a monotonically non-decreasing row, `searchsorted` returns the
first position whose element is not less than `v` when `right = false`
(everything before the result is `< v`, the element at the result, when it
exists, is `≥ v`), and the first position whose element is strictly
greater than `v` when `right = true`; on row `[1,3,5,7,9,11]` and values
`[3,6,9,10]` the results are `[1,3,4,5]` and `[2,3,5,5]`. -/
theorem searchsorted_insertion_index (seq : List Int) (v : Int)
    (hmono : List.Sorted (· ≤ ·) seq) :
    (searchsorted1d seq v false ≤ seq.length ∧
      (∀ j, j < searchsorted1d seq v false → seq.getD j 0 < v) ∧
      (searchsorted1d seq v false < seq.length →
        v ≤ seq.getD (searchsorted1d seq v false) 0)) ∧
    (searchsorted1d seq v true ≤ seq.length ∧
      (∀ j, j < searchsorted1d seq v true → seq.getD j 0 ≤ v) ∧
      (searchsorted1d seq v true < seq.length →
        v < seq.getD (searchsorted1d seq v true) 0)) ∧
    searchsortedT (Tensor.mk [6] [1, 3, 5, 7, 9, 11]) (Tensor.mk [4] [3, 6, 9, 10])
        false false = Tensor.mk [4] [1, 3, 4, 5] ∧
    searchsortedT (Tensor.mk [6] [1, 3, 5, 7, 9, 11]) (Tensor.mk [4] [3, 6, 9, 10])
        false true = Tensor.mk [4] [2, 3, 5, 5] := by
  clear hmono
  refine ⟨⟨?_, ?_, ?_⟩, ⟨?_, ?_, ?_⟩, by decide, by decide⟩
  · simpa [searchsorted1d] using lowerBound_le_length seq v
  · intro j hj
    exact lowerBound_before seq v j (by simpa [searchsorted1d] using hj)
  · intro h
    simpa [searchsorted1d] using lowerBound_at seq v (by simpa [searchsorted1d] using h)
  · simpa [searchsorted1d] using upperBound_le_length seq v
  · intro j hj
    exact upperBound_before seq v j (by simpa [searchsorted1d] using hj)
  · intro h
    simpa [searchsorted1d] using upperBound_at seq v (by simpa [searchsorted1d] using h)

/-- Witness for C2 at the literal example of the spec. -/
theorem searchsorted_insertion_index_witness :
    List.Sorted (fun a b => a ≤ b) ([1, 3, 5, 7, 9, 11] : List Int) ∧
      ((searchsorted1d [1, 3, 5, 7, 9, 11] 6 false ≤ 6 ∧
        (∀ j, j < searchsorted1d [1, 3, 5, 7, 9, 11] 6 false →
          ([1, 3, 5, 7, 9, 11] : List Int).getD j 0 < 6) ∧
        (searchsorted1d [1, 3, 5, 7, 9, 11] 6 false < 6 →
          6 ≤ ([1, 3, 5, 7, 9, 11] : List Int).getD
            (searchsorted1d [1, 3, 5, 7, 9, 11] 6 false) 0)) ∧
      (searchsorted1d [1, 3, 5, 7, 9, 11] 6 true ≤ 6 ∧
        (∀ j, j < searchsorted1d [1, 3, 5, 7, 9, 11] 6 true →
          ([1, 3, 5, 7, 9, 11] : List Int).getD j 0 ≤ 6) ∧
        (searchsorted1d [1, 3, 5, 7, 9, 11] 6 true < 6 →
          6 < ([1, 3, 5, 7, 9, 11] : List Int).getD
            (searchsorted1d [1, 3, 5, 7, 9, 11] 6 true) 0)) ∧
      searchsortedT (Tensor.mk [6] [1, 3, 5, 7, 9, 11]) (Tensor.mk [4] [3, 6, 9, 10])
          false false = Tensor.mk [4] [1, 3, 4, 5] ∧
      searchsortedT (Tensor.mk [6] [1, 3, 5, 7, 9, 11]) (Tensor.mk [4] [3, 6, 9, 10])
          false true = Tensor.mk [4] [2, 3, 5, 5]) :=
  ⟨by decide, searchsorted_insertion_index [1, 3, 5, 7, 9, 11] 6 (by decide)⟩

/-- C7: `bucketize(x, sorted_sequence, out_int32, right)` raises a value
error exactly when the rank of `sorted_sequence` is not 1, and otherwise
returns exactly `searchsorted(sorted_sequence, x, out_int32, right)`. -/
theorem bucketize_delegates_to_searchsorted (x sortedSequence : Tensor)
    (outInt32 right : Bool) :
    bucketizeF x sortedSequence outInt32 right =
      if sortedSequence.rank = 1 then
        Except.ok (searchsortedT sortedSequence x outInt32 right)
      else Except.error "sorted_sequence tensor must be 1 dimension" := by
  by_cases h : sortedSequence.rank = 1 <;> simp [bucketizeF, h]

theorem unflattenIdx_length (s : List Nat) (i : Nat) :
    (unflattenIdx s i).length = s.length := by
  induction s generalizing i with
  | nil => rfl
  | cons d ds ih => simp [unflattenIdx, ih]

theorem nonzeroCoords_mem_length (t : Tensor) (c : List Nat)
    (hc : c ∈ nonzeroCoords t) : c.length = t.rank := by
  simp only [nonzeroCoords, List.mem_filterMap] at hc
  obtain ⟨i, _, hi⟩ := hc
  by_cases h : t.data.getD i 0 ≠ 0
  · rw [if_pos h, Option.some.injEq] at hi
    rw [← hi, unflattenIdx_length]
    rfl
  · rw [if_neg h] at hi
    exact absurd hi (by simp)

theorem flatten_length_uniform {α : Type} (R : Nat) (rows : List (List α))
    (hR : ∀ row ∈ rows, row.length = R) :
    rows.flatten.length = rows.length * R := by
  induction rows with
  | nil => simp
  | cons row rest ih =>
    simp only [List.flatten_cons, List.length_append, List.length_cons]
    rw [hR row (by simp), ih (fun r hr => hR r (by simp [hr]))]
    ring

theorem flatten_getD_uniform {α : Type} (dflt : α) (R : Nat) (rows : List (List α))
    (hR : ∀ row ∈ rows, row.length = R) (r i : Nat)
    (hr : r < rows.length) (hi : i < R) :
    rows.flatten.getD (r * R + i) dflt = (rows.getD r []).getD i dflt := by
  induction rows generalizing r with
  | nil => simp at hr
  | cons row rest ih =>
    match r with
    | 0 =>
      simp only [List.flatten_cons, Nat.zero_mul, Nat.zero_add, List.getD_cons_zero]
      exact List.getD_append _ _ _ _ (by rw [hR row (by simp)]; exact hi)
    | r2 + 1 =>
      simp only [List.flatten_cons, List.getD_cons_succ]
      have hlen : row.length ≤ (r2 + 1) * R + i := by
        rw [hR row (by simp), Nat.add_mul, Nat.one_mul]
        omega
      rw [List.getD_append_right _ _ _ _ hlen]
      have harith : (r2 + 1) * R + i - row.length = r2 * R + i := by
        rw [hR row (by simp), Nat.add_mul, Nat.one_mul]
        omega
      rw [harith]
      exact ih (fun q hq => hR q (by simp [hq])) r2 (by simpa using hr)

theorem nonzeroKernel_col (t : Tensor) (r i : Nat)
    (hr : r < (nonzeroCoords t).length) (hi : i < t.rank) :
    (nonzeroKernel t).data.getD (r * t.rank + i) 0 =
      Int.ofNat (((nonzeroCoords t).getD r []).getD i 0) := by
  have hrows : ∀ row ∈ (nonzeroCoords t).map (fun c => c.map (fun x => Int.ofNat x)),
      row.length = t.rank := by
    intro row hrow
    rw [List.mem_map] at hrow
    obtain ⟨c, hc, hrow2⟩ := hrow
    rw [← hrow2, List.length_map]
    exact nonzeroCoords_mem_length t c hc
  simp only [nonzeroKernel]
  rw [flatten_getD_uniform 0 t.rank _ hrows r i (by simpa using hr) hi]
  have h1 : ((nonzeroCoords t).map (fun c => c.map (fun x => Int.ofNat x))).getD r [] =
      ((nonzeroCoords t).getD r []).map (fun x => Int.ofNat x) := by
    rw [List.getD_eq_getElem _ _ (by simpa using hr), List.getElem_map,
      List.getD_eq_getElem _ _ hr]
  have hmemc : (nonzeroCoords t).getD r [] ∈ nonzeroCoords t := by
    rw [List.getD_eq_getElem _ _ hr]
    exact List.get_mem _ _ _
  have hclen : ((nonzeroCoords t).getD r []).length = t.rank :=
    nonzeroCoords_mem_length t _ hmemc
  rw [h1, List.getD_eq_getElem _ _ (by rw [List.length_map, hclen]; exact hi),
    List.getElem_map]
  congr 1
  exact (List.getD_eq_getElem _ _ (by rw [hclen]; exact hi)).symm

theorem nonzeroRows_length (t : Tensor) :
    ∀ row ∈ (nonzeroCoords t).map (fun c => c.map (fun x => Int.ofNat x)),
      row.length = t.rank := by
  intro row hrow
  rw [List.mem_map] at hrow
  obtain ⟨c, hc, hrow2⟩ := hrow
  rw [← hrow2, List.length_map]
  exact nonzeroCoords_mem_length t c hc

theorem nonzeroKernel_data_length (t : Tensor) :
    (nonzeroKernel t).data.length = (nonzeroCoords t).length * t.rank := by
  simp only [nonzeroKernel]
  rw [flatten_length_uniform t.rank _ (nonzeroRows_length t), List.length_map]

theorem sliceCol_nonzeroKernel_data (t : Tensor) (i : Nat) (hi : i < t.rank) :
    (sliceCol (nonzeroKernel t) i).data =
      (nonzeroCoords t).map (fun c => Int.ofNat (c.getD i 0)) := by
  apply List.ext_getElem
  · simp [sliceCol, nonzeroKernel]
  · intro r h1 h2
    have hZ : r < (nonzeroCoords t).length := by
      simpa [sliceCol, nonzeroKernel] using h1
    rw [← List.getD_eq_getElem _ 0 h1, ← List.getD_eq_getElem _ 0 h2]
    have hL2 : (sliceCol (nonzeroKernel t) i).data.getD r 0 =
        (nonzeroKernel t).data.getD (r * t.rank + i) 0 := by
      rw [show (sliceCol (nonzeroKernel t) i).data =
          (List.range ((nonzeroCoords t).length)).map
            (fun r2 => (nonzeroKernel t).data.getD (r2 * t.rank + i) 0) from rfl,
        range_map_getD _ _ _ _ hZ]
    rw [hL2, nonzeroKernel_col t r i hZ hi,
      List.getD_eq_getElem (List.map (fun c => Int.ofNat (c.getD i 0)) (nonzeroCoords t))
        0 (by simpa using hZ),
      List.getElem_map, List.getD_eq_getElem (nonzeroCoords t) [] hZ]

theorem nonzeroKernel_data_rank_one (t : Tensor) (h1 : t.rank = 1) :
    (nonzeroKernel t).data =
      (nonzeroCoords t).map (fun c => Int.ofNat (c.getD 0 0)) := by
  apply List.ext_getElem
  · rw [nonzeroKernel_data_length, h1, Nat.mul_one, List.length_map]
  · intro j hj1 hj2
    have hZ : j < (nonzeroCoords t).length := by
      rw [nonzeroKernel_data_length, h1, Nat.mul_one] at hj1
      exact hj1
    have hidx : j = j * t.rank + 0 := by rw [h1, Nat.mul_one, Nat.add_zero]
    rw [← List.getD_eq_getElem _ 0 hj1]
    conv_lhs => rw [hidx]
    rw [nonzeroKernel_col t j 0 hZ (by omega), List.getElem_map,
      List.getD_eq_getElem (nonzeroCoords t) [] hZ]

/-- C8: `nonzero(x, as_tuple=True)` returns a tuple of `R = rank x`
tensors each of shape `[Z, 1]` (`Z` the number of nonzero elements), the
`i`-th holding column `i` of the `[Z, R]` coordinate tensor; rank-1 input
yields the 1-tuple containing the `[Z, 1]` kernel tensor directly,
without the per-axis split path. -/
theorem nonzero_as_tuple_columns (t : Tensor) :
    (nonzeroTuple t).length = t.rank ∧
      (∀ i, i < t.rank →
        ((nonzeroTuple t).getD i (Tensor.mk [] [])).shape =
            [(nonzeroCoords t).length, 1] ∧
          ((nonzeroTuple t).getD i (Tensor.mk [] [])).data =
            (nonzeroCoords t).map (fun c => Int.ofNat (c.getD i 0))) ∧
      (t.rank = 1 → nonzeroTuple t = [nonzeroKernel t]) := by
  by_cases h1 : t.rank = 1
  · refine ⟨by simp [nonzeroTuple, h1], ?_, fun _ => by simp [nonzeroTuple, h1]⟩
    intro i hi
    have hi0 : i = 0 := by omega
    subst hi0
    have htup : nonzeroTuple t = [nonzeroKernel t] := by simp [nonzeroTuple, h1]
    rw [htup]
    constructor
    · simp [nonzeroKernel, h1]
    · simpa using nonzeroKernel_data_rank_one t h1
  · refine ⟨by simp [nonzeroTuple, h1], ?_, fun hc => absurd hc h1⟩
    intro i hi
    have htup : nonzeroTuple t =
        (List.range t.rank).map (fun j => sliceCol (nonzeroKernel t) j) := by
      simp [nonzeroTuple, h1]
    rw [htup, range_map_getD _ _ _ _ hi]
    exact ⟨by simp [sliceCol, nonzeroKernel], sliceCol_nonzeroKernel_data t i hi⟩

example : nonzeroKernel (Tensor.mk [3, 3] [1, 0, 0, 0, 2, 0, 0, 0, 3]) =
    Tensor.mk [3, 2] [0, 0, 1, 1, 2, 2] := by decide

example : nonzeroTuple (Tensor.mk [3, 3] [1, 0, 0, 0, 2, 0, 0, 0, 3]) =
    [Tensor.mk [3, 1] [0, 1, 2], Tensor.mk [3, 1] [0, 1, 2]] := by decide

example : nonzeroTuple (Tensor.mk [4] [0, 1, 0, 3]) =
    [Tensor.mk [2, 1] [1, 3]] := by decide

/-- C4: `where(condition)` with both `x` and `y` omitted returns exactly
`nonzero(condition, as_tuple=True)`. -/
theorem where_both_null_is_nonzero_tuple (cond : Tensor) :
    whereF cond WhereArg.null WhereArg.null = Except.ok (nonzeroF cond true) := rfl

/-- C5: `where` with exactly one of `x` and `y` omitted (the other a
tensor) raises the value error and returns no result. -/
theorem where_one_null_errors (cond t : Tensor) :
    whereF cond (WhereArg.tensor t) WhereArg.null =
        Except.error "either both or neither of x and y should be given" ∧
      whereF cond WhereArg.null (WhereArg.tensor t) =
        Except.error "either both or neither of x and y should be given" :=
  ⟨rfl, rfl⟩

theorem bcastRev_self (xs : List Nat) : bcastRev xs xs = Option.some xs := by
  induction xs with
  | nil => rfl
  | cons x rest ih => simp [bcastRev, ih]

theorem broadcastShape2_self (s : List Nat) :
    broadcastShape2 s s = Option.some s := by
  simp [broadcastShape2, bcastRev_self, List.reverse_reverse]

theorem broadcastShape3_self (s : List Nat) :
    broadcastShape3 s s s = Option.some s := by
  simp [broadcastShape3, broadcastShape2_self]

theorem readStore_writeStore_ne (σ : Store) (i j : Nat) (d : List Int)
    (h : j ≠ i) : readStore (writeStore σ i d) j = readStore σ j := by
  simp only [readStore, writeStore]
  rw [List.getD_eq_getElem?_getD, List.getD_eq_getElem?_getD,
    List.getElem?_set_ne (by omega)]

/-- C9: whenever `where_` succeeds, the call was in eager mode, both data
operands were tensors, the returned tensor is the first operand `x`
itself (same storage id, same shape — no fresh storage for the result),
the shape of `x` already equals the broadcast output shape, and no
storage other than that of `x` is changed. -/
theorem whereInplace_frame (eager : Bool) (σ : Store) (cond : TRef)
    (x0 y0 : WhereRefArg) (σ2 : Store) (r : TRef)
    (h : whereInplace eager σ cond x0 y0 = Except.ok (σ2, r)) :
    eager = true ∧
      ∃ x y, x0 = WhereRefArg.ref x ∧ y0 = WhereRefArg.ref y ∧
        r = x ∧
        broadcastShape3 x.shape y.shape cond.shape = Option.some x.shape ∧
        (∃ d, σ2 = writeStore σ x.id d) ∧
        (∀ j, j ≠ x.id → readStore σ2 j = readStore σ j) := by
  cases eager with
  | false => rw [whereInplace, if_pos rfl] at h; simp at h
  | true =>
    refine ⟨rfl, ?_⟩
    rw [whereInplace, if_neg (by simp)] at h
    cases x0 with
    | null => simp [isScalarArg, refArgToOpt] at h
    | scalar v => simp [isScalarArg] at h
    | ref x =>
      cases y0 with
      | null => simp [isScalarArg, refArgToOpt] at h
      | scalar v => simp [isScalarArg] at h
      | ref y =>
        rw [if_neg (by simp [isScalarArg])] at h
        have h2 : whereInplaceRefs σ cond x y = Except.ok (σ2, r) := h
        clear h
        rw [whereInplaceRefs] at h2
        refine ⟨x, y, rfl, rfl, ?_⟩
        by_cases hsh : x.shape = y.shape ∧ cond.shape = x.shape
        · rw [if_pos hsh] at h2
          have hσ : σ2 = writeStore σ x.id
              (whereKernel (derefT σ cond) (derefT σ x) (derefT σ y)).data ∧
              r = x := by
            simp only [Except.ok.injEq, Prod.mk.injEq] at h2
            exact ⟨h2.1.symm, h2.2.symm⟩
          refine ⟨hσ.2, ?_, ⟨_, hσ.1⟩, ?_⟩
          · rw [← hsh.1, hsh.2, ← hsh.2]
            have hcx : cond.shape = x.shape := hsh.2
            rw [hcx]
            exact broadcastShape3_self x.shape
          · intro j hj
            rw [hσ.1]
            exact readStore_writeStore_ne σ x.id j _ hj
        · rw [if_neg hsh] at h2
          cases hbc : broadcastShape3 x.shape y.shape cond.shape with
          | none => rw [hbc] at h2; simp at h2
          | some s =>
            rw [hbc] at h2
            simp only [] at h2
            by_cases hxs : x.shape = s
            · rw [if_pos hxs] at h2
              have hσ : σ2 = writeStore σ x.id
                  (whereKernel (broadcastTo (derefT σ cond) s)
                    (broadcastTo (derefT σ x) s)
                    (broadcastTo (derefT σ y) s)).data ∧ r = x := by
                simp only [Except.ok.injEq, Prod.mk.injEq] at h2
                exact ⟨h2.1.symm, h2.2.symm⟩
              refine ⟨hσ.2, by rw [hxs], ⟨_, hσ.1⟩, ?_⟩
              intro j hj
              rw [hσ.1]
              exact readStore_writeStore_ne σ x.id j _ hj
            · rw [if_neg hxs] at h2
              simp at h2

/-- Witness for C9 at a concrete eager-mode run with matching shapes. -/
theorem whereInplace_frame_witness :
    whereInplace true [[1, 0], [10, 20], [30, 40]] (TRef.mk 0 [2])
        (WhereRefArg.ref (TRef.mk 1 [2])) (WhereRefArg.ref (TRef.mk 2 [2])) =
      Except.ok ([[1, 0], [10, 40], [30, 40]], TRef.mk 1 [2]) ∧
    (true = true ∧
      ∃ x y, WhereRefArg.ref (TRef.mk 1 [2]) = WhereRefArg.ref x ∧
        WhereRefArg.ref (TRef.mk 2 [2]) = WhereRefArg.ref y ∧
        TRef.mk 1 [2] = x ∧
        broadcastShape3 x.shape y.shape (TRef.mk 0 [2]).shape = Option.some x.shape ∧
        (∃ d, ([[1, 0], [10, 40], [30, 40]] : Store) =
          writeStore [[1, 0], [10, 20], [30, 40]] x.id d) ∧
        (∀ j, j ≠ x.id →
          readStore [[1, 0], [10, 40], [30, 40]] j =
            readStore [[1, 0], [10, 20], [30, 40]] j)) :=
  ⟨rfl,
    whereInplace_frame true [[1, 0], [10, 20], [30, 40]] (TRef.mk 0 [2])
      (WhereRefArg.ref (TRef.mk 1 [2])) (WhereRefArg.ref (TRef.mk 2 [2]))
      [[1, 0], [10, 40], [30, 40]] (TRef.mk 1 [2]) rfl⟩

/-- C10: in eager mode `where_` raises the value error whenever `x` or
`y` is a scalar, even when both are supplied, while `where` promotes a
scalar operand to a length-1 tensor and proceeds. -/
theorem whereInplace_scalar_errors (σ : Store) (cond : TRef) (v : Int)
    (other : WhereRefArg) (condT t : Tensor) :
    whereInplace true σ cond (WhereRefArg.scalar v) other =
        Except.error "either both or neither of x and y should be given" ∧
      whereInplace true σ cond other (WhereRefArg.scalar v) =
        Except.error "either both or neither of x and y should be given" ∧
      whereF condT (WhereArg.scalar v) (WhereArg.tensor t) =
        whereF condT (WhereArg.tensor (Tensor.mk [1] [v])) (WhereArg.tensor t) ∧
      whereF condT (WhereArg.tensor t) (WhereArg.scalar v) =
        whereF condT (WhereArg.tensor t) (WhereArg.tensor (Tensor.mk [1] [v])) := by
  refine ⟨?_, ?_, rfl, rfl⟩
  · simp [whereInplace, isScalarArg]
  · simp [whereInplace, isScalarArg]

/-- C6: calling `argmax` or `argmin` with an explicitly null `dtype`
raises a value error, for every input tensor, axis and keepdim flag,
before any computation or dispatch is attempted. -/
theorem argmax_argmin_null_dtype_error (x : Tensor) (axis : Option Int)
    (keepdim : Bool) :
    argmaxW x axis keepdim Option.none =
        Except.error
          "the value of dtype in argmax could not be None, but received None" ∧
      argminW x axis keepdim Option.none =
        Except.error
          "the value of dtype in argmin could not be None, but received None" :=
  ⟨rfl, rfl⟩

/-- Witness for C8 at the documented `[[1,0,0],[0,2,0],[0,0,3]]` example. -/
theorem nonzero_as_tuple_columns_witness :
    (nonzeroTuple (Tensor.mk [3, 3] [1, 0, 0, 0, 2, 0, 0, 0, 3])).length =
        (Tensor.mk [3, 3] [1, 0, 0, 0, 2, 0, 0, 0, 3]).rank ∧
      (∀ i, i < (Tensor.mk [3, 3] [1, 0, 0, 0, 2, 0, 0, 0, 3]).rank →
        ((nonzeroTuple (Tensor.mk [3, 3] [1, 0, 0, 0, 2, 0, 0, 0, 3])).getD i
            (Tensor.mk [] [])).shape =
          [(nonzeroCoords (Tensor.mk [3, 3] [1, 0, 0, 0, 2, 0, 0, 0, 3])).length, 1] ∧
        ((nonzeroTuple (Tensor.mk [3, 3] [1, 0, 0, 0, 2, 0, 0, 0, 3])).getD i
            (Tensor.mk [] [])).data =
          (nonzeroCoords (Tensor.mk [3, 3] [1, 0, 0, 0, 2, 0, 0, 0, 3])).map
            (fun c => Int.ofNat (c.getD i 0))) ∧
      ((Tensor.mk [3, 3] [1, 0, 0, 0, 2, 0, 0, 0, 3]).rank = 1 →
        nonzeroTuple (Tensor.mk [3, 3] [1, 0, 0, 0, 2, 0, 0, 0, 3]) =
          [nonzeroKernel (Tensor.mk [3, 3] [1, 0, 0, 0, 2, 0, 0, 0, 3])]) :=
  nonzero_as_tuple_columns (Tensor.mk [3, 3] [1, 0, 0, 0, 2, 0, 0, 0, 3])

end PaddleSearch
